import Mathlib

/-!
Verification development for the semantic retrieval subsystem of the
StudEsprit repository: the paragraph segmenter
(`PDFProcessor.split_text_into_paragraphs` in `core/library_services.py`),
the deterministic embedder (`compute_embedding` in `ai/embeddings.py`),
the similarity search (`EmbeddingService.search_similar_paragraphs` and
`DocumentService` in `library/models.py`), the retrieval orchestration
(`SemanticSearchService.search_documents`), and the profile vector search
with its fallback (`vector_search` in `ai/embeddings.py`).

Text is modelled as a list of Unicode code points (`List Nat`), floats as
real numbers, MongoDB collections as in-memory lists of records, and
MongoDB/BSON ObjectIds as `Nat` (ObjectId parsing is modelled as always
succeeding).
-/

namespace StudEsprit

/-- Code-point test matching Python's `\s` / `str.strip` whitespace for the
characters this code can meet: space, tab, newline, carriage return,
vertical tab, form feed. -/
def isSpaceNat (c : Nat) : Bool :=
  c == 32 || c == 9 || c == 10 || c == 13 || c == 11 || c == 12

/-- Convert a Lean string literal to its list of code points (used only to
write concrete inputs readably). -/
def str (s : String) : List Nat :=
  s.data.map Char.toNat

/-- Python `str.strip()`: remove leading and trailing whitespace. -/
def strip (s : List Nat) : List Nat :=
  (s.dropWhile isSpaceNat).rdropWhile isSpaceNat

/-- Helper for `collapseWs`: the Boolean flag records whether the previous
character was part of a whitespace run already emitted as a single space. -/
def collapseWsAux : List Nat → Bool → List Nat
  | [], _ => []
  | c :: rest, inRun =>
    if isSpaceNat c then
      if inRun then collapseWsAux rest true else 32 :: collapseWsAux rest true
    else c :: collapseWsAux rest false

/-- Python `re.sub(r'\s+', ' ', s)`: collapse every whitespace run to a
single space. -/
def collapseWs (s : List Nat) : List Nat :=
  collapseWsAux s false

/-- Sentence delimiter of `re.split(r'[.!?]+', ...)`: `.` `!` `?`. -/
def isDelim (c : Nat) : Bool :=
  c == 46 || c == 33 || c == 63

/-- Helper for `splitDelims`: `cur` is the current piece reversed, the flag
records whether the previous character was a delimiter (so that a run of
delimiters acts as a single separator, as `[.!?]+` does). -/
def splitDelimsAux : List Nat → List Nat → Bool → List (List Nat)
  | [], cur, _ => [cur.reverse]
  | c :: rest, cur, prevDelim =>
    if isDelim c then
      if prevDelim then splitDelimsAux rest [] true
      else cur.reverse :: splitDelimsAux rest [] true
    else splitDelimsAux rest (c :: cur) false

/-- Python `re.split(r'[.!?]+', s)`. -/
def splitDelims (s : List Nat) : List (List Nat) :=
  splitDelimsAux s [] false

/-- Helper for `splitBlank`, a one-pass rendering of `re.split(r'\n\s*\n', s)`.
`cur` is the current piece reversed.  The optional state is an open
whitespace-run buffer started by a newline: `up` is the run up to and
including its last newline (reversed), `after` the run after that newline
(reversed, contains no newline), and the flag records whether a second
newline was seen (i.e. whether the buffer holds a match of the pattern:
greedy `\s*` backtracks so the match ends at the run's last newline). -/
def splitBlankAux : List Nat → List Nat → Option (List Nat × List Nat × Bool) → List (List Nat)
  | [], cur, none => [cur.reverse]
  | [], cur, some (up, after, saw) =>
    if saw then [cur.reverse, after.reverse]
    else [(after ++ up ++ cur).reverse]
  | c :: rest, cur, none =>
    if c == 10 then splitBlankAux rest cur (some ([10], [], false))
    else splitBlankAux rest (c :: cur) none
  | c :: rest, cur, some (up, after, saw) =>
    if c == 10 then splitBlankAux rest cur (some (10 :: (after ++ up), [], true))
    else if isSpaceNat c then splitBlankAux rest cur (some (up, c :: after, saw))
    else if saw then cur.reverse :: splitBlankAux rest (c :: after) none
    else splitBlankAux rest (c :: (after ++ up ++ cur)) none

/-- Python `re.split(r'\n\s*\n', s)`: split on blank-line boundaries. -/
def splitBlank (s : List Nat) : List (List Nat) :=
  splitBlankAux s [] none

/-- Python `current_chunk += " " + sentence if current_chunk else sentence`. -/
def chunkAppend (chunk s : List Nat) : List Nat :=
  if chunk = [] then s else chunk ++ 32 :: s

/-- One iteration of the sentence-accumulation loop in
`split_text_into_paragraphs`: `acc.1` is `processed_paragraphs`, `acc.2` is
`current_chunk`.  Mirrors
`if len(current_chunk + sentence) > max_length and current_chunk`. -/
def resplitStep (maxLen : Nat) (acc : List (List Nat) × List Nat) (sent : List Nat) :
    List (List Nat) × List Nat :=
  let s := strip sent
  if s = [] then acc
  else if maxLen < acc.2.length + s.length ∧ acc.2 ≠ [] then
    (acc.1 ++ [strip acc.2], s)
  else (acc.1, chunkAppend acc.2 s)

/-- The `if len(paragraph) > max_length` branch of
`split_text_into_paragraphs`: split an over-long paragraph at sentence
boundaries, greedily accumulating sentences. -/
def resplit (maxLen : Nat) (p : List Nat) : List (List Nat) :=
  let r := (splitDelims p).foldl (resplitStep maxLen) ([], [])
  if strip r.2 = [] then r.1 else r.1 ++ [strip r.2]

/-- Model of `PDFProcessor.split_text_into_paragraphs(text, min_length, max_length)`
(`core/library_services.py`): guard on empty/whitespace text, collapse
whitespace runs (`re.sub(r'\s+', ' ', text.strip())`), split on blank lines
(`re.split(r'\n\s*\n', text)` — applied after the collapse, as the code
does), then per candidate: drop it if shorter than `min_length`, re-split at
sentence boundaries if longer than `max_length`, keep it otherwise. -/
def split_text_into_paragraphs (text : List Nat) (minLen : Nat := 100) (maxLen : Nat := 1000) :
    List (List Nat) :=
  if strip text = [] then []
  else
    let t := collapseWs (strip text)
    (splitBlank t).foldl
      (fun acc para =>
        let p := strip para
        if p.length < minLen then acc
        else if maxLen < p.length then acc ++ resplit maxLen p
        else acc ++ [p])
      []

/-! ### Elementary facts about `strip` -/

theorem length_strip_le (s : List Nat) : (strip s).length ≤ s.length :=
  le_trans ( List.rdropWhile_prefix _ _).length_le (List.dropWhile_suffix _).length_le

theorem dropWhile_eq_self_of_strip_eq {s : List Nat} (h : strip s = s) :
    s.dropWhile isSpaceNat = s := by
  have hsuf : s.dropWhile isSpaceNat <:+ s := List.dropWhile_suffix _
  have hlen : s.length ≤ (s.dropWhile isSpaceNat).length := by
    conv_lhs => rw [← h]
    exact ( List.rdropWhile_prefix _ _).length_le
  exact hsuf.eq_of_length (le_antisymm hsuf.length_le hlen)

theorem rdropWhile_eq_self_of_strip_eq {s : List Nat} (h : strip s = s) :
    s.rdropWhile isSpaceNat = s := by
  have := h
  unfold strip at this
  rwa [dropWhile_eq_self_of_strip_eq h] at this

theorem dropWhile_cons_eq_self {α : Type} {p : α → Bool} {c : α} {t : List α}
    (h : List.dropWhile p (c :: t) = c :: t) : p c = false := by
  by_contra hc
  rw [List.dropWhile_cons, if_pos (by simpa using hc)] at h
  have := (@List.dropWhile_suffix _ t p).length_le
  rw [h] at this
  simp at this

theorem dropWhile_eq_self_of_isPre {α : Type} {p : α → Bool} {l₁ l₂ : List α}
    (hp : l₁ <+: l₂) (h : List.dropWhile p l₂ = l₂) : List.dropWhile p l₁ = l₁ := by
  cases l₁ with
  | nil => simp
  | cons c t =>
    obtain ⟨u, hu⟩ := hp
    have hc : p c = false :=
      dropWhile_cons_eq_self (show List.dropWhile p (c :: (t ++ u)) = c :: (t ++ u) by
        rw [show c :: (t ++ u) = c :: t ++ u by simp, hu]
        exact h)
    rw [List.dropWhile_cons, if_neg (by simp [hc])]

theorem rdropWhile_eq_self_rev {α : Type} {p : α → Bool} {l : List α}
    (h : List.dropWhile p l.reverse = l.reverse) : List.rdropWhile p l = l := by
  unfold List.rdropWhile
  rw [h, List.reverse_reverse]

theorem strip_idem (s : List Nat) : strip (strip s) = strip s := by
  have h1 : List.dropWhile isSpaceNat (strip s) = strip s :=
    dropWhile_eq_self_of_isPre ( List.rdropWhile_prefix _ _)
      (List.dropWhile_idempotent _ _)
  show (List.dropWhile isSpaceNat (strip s)).rdropWhile isSpaceNat = strip s
  rw [h1]
  exact List.rdropWhile_idempotent _ _

theorem strip_append_mid {x y : List Nat} (hx : strip x = x) (hx0 : x ≠ [])
    (hy : strip y = y) (hy0 : y ≠ []) : strip (x ++ 32 :: y) = x ++ 32 :: y := by
  have hdx : List.dropWhile isSpaceNat x = x := dropWhile_eq_self_of_strip_eq hx
  have hd : List.dropWhile isSpaceNat (x ++ 32 :: y) = x ++ 32 :: y := by
    cases x with
    | nil => exact absurd rfl hx0
    | cons c t =>
      have hc : isSpaceNat c = false := dropWhile_cons_eq_self hdx
      rw [List.cons_append, List.dropWhile_cons, if_neg (by simp [hc])]
  have hry : List.dropWhile isSpaceNat y.reverse = y.reverse := by
    have := rdropWhile_eq_self_of_strip_eq hy
    unfold List.rdropWhile at this
    have := congrArg List.reverse this
    rwa [List.reverse_reverse] at this
  show (List.dropWhile isSpaceNat (x ++ 32 :: y)).rdropWhile isSpaceNat = x ++ 32 :: y
  rw [hd]
  apply rdropWhile_eq_self_rev
  rw [show x ++ 32 :: y = x ++ [32] ++ y by simp, List.reverse_append]
  cases hyr : y.reverse with
  | nil => exact absurd (by simpa using congrArg List.reverse hyr) hy0
  | cons c t =>
    have hc : isSpaceNat c = false :=
      dropWhile_cons_eq_self (show List.dropWhile isSpaceNat (c :: t) = c :: t by
        rw [← hyr]
        exact hry)
    rw [List.cons_append, List.dropWhile_cons, if_neg (by simp [hc])]

/-! ### The sentence re-splitting loop: invariant and bounds -/

/-- Property of an emitted chunk: within `maxLen + 1`, or a single stripped
sentence of the sentence list `sents` (kept whole although over-long). -/
def ChunkOK (maxLen : Nat) (sents : List (List Nat)) (r : List Nat) : Prop :=
  r.length ≤ maxLen + 1 ∨ ∃ s ∈ sents, r = strip s

theorem resplitStep_inv {maxLen : Nat} {sents : List (List Nat)}
    {acc : List (List Nat) × List Nat} {x : List Nat} (hx : x ∈ sents)
    (h1 : ∀ r ∈ acc.1, r ≠ [] ∧ ChunkOK maxLen sents r)
    (h2 : acc.2 = [] ∨ (strip acc.2 = acc.2 ∧ acc.2 ≠ [] ∧ ChunkOK maxLen sents acc.2)) :
    (∀ r ∈ (resplitStep maxLen acc x).1, r ≠ [] ∧ ChunkOK maxLen sents r) ∧
      ((resplitStep maxLen acc x).2 = [] ∨
        (strip (resplitStep maxLen acc x).2 = (resplitStep maxLen acc x).2 ∧
          (resplitStep maxLen acc x).2 ≠ [] ∧ ChunkOK maxLen sents (resplitStep maxLen acc x).2)) := by
  unfold resplitStep
  by_cases hs : strip x = []
  · simp only [hs, if_pos rfl]
    exact ⟨h1, h2⟩
  · simp only [if_neg hs]
    by_cases hflush : maxLen < acc.2.length + (strip x).length ∧ acc.2 ≠ []
    · rw [if_pos hflush]
      rcases h2 with h2 | ⟨h2a, _, h2c⟩
      · exact absurd h2 hflush.2
      constructor
      · intro r hr
        rcases List.mem_append.mp hr with hr | hr
        · exact h1 r hr
        · have : r = strip acc.2 := by simpa using hr
          rw [this, h2a]
          exact ⟨hflush.2, h2c⟩
      · right
        exact ⟨strip_idem x, hs, Or.inr ⟨x, hx, rfl⟩⟩
    · rw [if_neg hflush]
      refine ⟨h1, Or.inr ?_⟩
      rcases h2 with h2 | ⟨h2a, h2b, _⟩
      · unfold chunkAppend
        rw [h2, if_pos rfl]
        exact ⟨strip_idem x, hs, Or.inr ⟨x, hx, rfl⟩⟩
      · unfold chunkAppend
        rw [if_neg h2b]
        have hlen : acc.2.length + (strip x).length ≤ maxLen := by
          by_contra hgt
          exact hflush ⟨Nat.lt_of_not_le hgt, h2b⟩
        refine ⟨strip_append_mid h2a h2b (strip_idem x) hs, by simp, Or.inl ?_⟩
        simp only [List.length_append, List.length_cons]
        omega

theorem resplit_foldl_inv (maxLen : Nat) (sents : List (List Nat)) :
    ∀ (l : List (List Nat)) (acc : List (List Nat) × List Nat),
      (∀ x ∈ l, x ∈ sents) →
      (∀ r ∈ acc.1, r ≠ [] ∧ ChunkOK maxLen sents r) →
      (acc.2 = [] ∨ (strip acc.2 = acc.2 ∧ acc.2 ≠ [] ∧ ChunkOK maxLen sents acc.2)) →
      (∀ r ∈ (l.foldl (resplitStep maxLen) acc).1, r ≠ [] ∧ ChunkOK maxLen sents r) ∧
        ((l.foldl (resplitStep maxLen) acc).2 = [] ∨
          (strip (l.foldl (resplitStep maxLen) acc).2 = (l.foldl (resplitStep maxLen) acc).2 ∧
            (l.foldl (resplitStep maxLen) acc).2 ≠ [] ∧
            ChunkOK maxLen sents (l.foldl (resplitStep maxLen) acc).2))
  | [], acc, _, h1, h2 => ⟨h1, h2⟩
  | x :: rest, acc, hl, h1, h2 => by
    rw [List.foldl_cons]
    have step := resplitStep_inv (hl x (by simp)) h1 h2
    exact resplit_foldl_inv maxLen sents rest (resplitStep maxLen acc x)
      (fun y hy => hl y (by simp [hy])) step.1 step.2

/-- Every chunk produced by re-splitting an over-long paragraph is nonempty,
and is either within `maxLen + 1` or a single stripped sentence of the
paragraph. -/
theorem resplit_mem {maxLen : Nat} {c q : List Nat} (hq : q ∈ resplit maxLen c) :
    q ≠ [] ∧ (q.length ≤ maxLen + 1 ∨ ∃ s ∈ splitDelims c, q = strip s) := by
  unfold resplit at hq
  have inv := resplit_foldl_inv maxLen (splitDelims c) (splitDelims c) ([], [])
    (fun _ h => h) (by simp) (Or.inl rfl)
  set r := (splitDelims c).foldl (resplitStep maxLen) ([], []) with hr
  by_cases hend : strip r.2 = []
  · rw [if_pos hend] at hq
    exact inv.1 q hq
  · rw [if_neg hend] at hq
    rcases List.mem_append.mp hq with hq | hq
    · exact inv.1 q hq
    · have hq2 : q = strip r.2 := by simpa using hq
      rcases inv.2 with h | ⟨ha, _, hc2⟩
      · rw [h] at hend
        simp [strip] at hend
      · rw [hq2, ha]
        exact ⟨by rwa [ha] at hend, hc2⟩

/-! ### Membership characterization of the segmenter output -/

/-- What the per-candidate branch of `split_text_into_paragraphs` produces. -/
def candidateOut (minLen maxLen : Nat) (para : List Nat) : List (List Nat) :=
  let p := strip para
  if p.length < minLen then []
  else if maxLen < p.length then resplit maxLen p
  else [p]

theorem segLoop_eq (minLen maxLen : Nat) :
    ∀ (paras : List (List Nat)) (acc : List (List Nat)),
      paras.foldl
        (fun acc para =>
          let p := strip para
          if p.length < minLen then acc
          else if maxLen < p.length then acc ++ resplit maxLen p
          else acc ++ [p])
        acc = acc ++ paras.flatMap (candidateOut minLen maxLen)
  | [], acc => by simp
  | para :: rest, acc => by
    rw [List.foldl_cons, List.flatMap_cons, segLoop_eq minLen maxLen rest]
    show (if (strip para).length < minLen then acc
      else if maxLen < (strip para).length then acc ++ resplit maxLen (strip para)
      else acc ++ [strip para]) ++ _ = _
    unfold candidateOut
    by_cases h1 : (strip para).length < minLen
    · simp [h1]
    · by_cases h2 : maxLen < (strip para).length <;> simp [h1, h2]

theorem mem_split_text {text : List Nat} {minLen maxLen : Nat} {p : List Nat}
    (hp : p ∈ split_text_into_paragraphs text minLen maxLen) :
    ∃ c ∈ splitBlank (collapseWs (strip text)),
      minLen ≤ (strip c).length ∧
        ((maxLen < (strip c).length ∧ p ∈ resplit maxLen (strip c)) ∨
          ((strip c).length ≤ maxLen ∧ p = strip c)) := by
  unfold split_text_into_paragraphs at hp
  by_cases h0 : strip text = []
  · rw [if_pos h0] at hp
    exact absurd hp (by simp)
  · rw [if_neg h0] at hp
    rw [segLoop_eq, List.nil_append] at hp
    obtain ⟨c, hc, hpc⟩ := List.mem_flatMap.mp hp
    refine ⟨c, hc, ?_⟩
    unfold candidateOut at hpc
    by_cases h1 : (strip c).length < minLen
    · rw [if_pos h1] at hpc
      exact absurd hpc (by simp)
    · rw [if_neg h1] at hpc
      refine ⟨Nat.le_of_not_lt h1, ?_⟩
      by_cases h2 : maxLen < (strip c).length
      · rw [if_pos h2] at hpc
        exact Or.inl ⟨h2, hpc⟩
      · rw [if_neg h2] at hpc
        exact Or.inr ⟨Nat.le_of_not_lt h2, by simpa using hpc⟩

/-! ### Claims C2 and C4 -/

/-- C2 (counterexample): on `"AAA. BBBB. CC"` with `min_length = 3`,
`max_length = 7` the segmenter returns `["AAA BBBB", "CC"]`: the chunk
`"CC"` is shorter than `min_length`, and the chunk `"AAA BBBB"` has length
`max_length + 1` yet is not a single sentence of the candidate (the
sentences are `"AAA"`, `"BBBB"`, `"CC"`), refuting both bounds of the claim
as stated. -/
theorem split_text_claim_false :
    split_text_into_paragraphs (str "AAA. BBBB. CC") 3 7 = [str "AAA BBBB", str "CC"] ∧
      (str "CC") ∈ split_text_into_paragraphs (str "AAA. BBBB. CC") 3 7 ∧
      (str "CC").length < 3 ∧
      (str "AAA BBBB") ∈ split_text_into_paragraphs (str "AAA. BBBB. CC") 3 7 ∧
      (str "AAA BBBB").length = 7 + 1 ∧
      ¬ ∃ s ∈ splitDelims (strip (collapseWs (strip (str "AAA. BBBB. CC")))),
        str "AAA BBBB" = strip s := by
  decide

/-- C2 (amended): every paragraph output by `split_text_into_paragraphs`
either is an unsplit candidate, in which case its length lies between
`minLen` and `maxLen`, or comes from re-splitting an over-long candidate,
in which case it is nonempty and its length is at most `maxLen + 1` (the
accumulation test ignores the joining space) unless it is a single stripped
sentence of that candidate, kept whole; re-split chunks may fall below
`minLen`. -/
theorem split_text_bounds {text : List Nat} {minLen maxLen : Nat} {p : List Nat}
    (hp : p ∈ split_text_into_paragraphs text minLen maxLen) :
    (minLen ≤ p.length ∧ p.length ≤ maxLen) ∨
      (p ≠ [] ∧ ∃ c ∈ splitBlank (collapseWs (strip text)),
        minLen ≤ (strip c).length ∧ maxLen < (strip c).length ∧
          p ∈ resplit maxLen (strip c) ∧
          (p.length ≤ maxLen + 1 ∨ ∃ s ∈ splitDelims (strip c), p = strip s)) := by
  obtain ⟨c, hc, hmin, hcase⟩ := mem_split_text hp
  rcases hcase with ⟨hmax, hres⟩ | ⟨hle, rfl⟩
  · obtain ⟨hne, hbound⟩ := resplit_mem hres
    exact Or.inr ⟨hne, c, hc, hmin, hmax, hres, hbound⟩
  · exact Or.inl ⟨hmin, hle⟩

/-- Witness for `split_text_bounds` at the concrete input
`"AAA. BBBB. CC"`, `min_length = 3`, `max_length = 7`, paragraph `"CC"`. -/
theorem split_text_bounds_witness :
    (str "CC") ∈ split_text_into_paragraphs (str "AAA. BBBB. CC") 3 7 ∧
      ((3 ≤ (str "CC").length ∧ (str "CC").length ≤ 7) ∨
        ((str "CC") ≠ [] ∧ ∃ c ∈ splitBlank (collapseWs (strip (str "AAA. BBBB. CC"))),
          3 ≤ (strip c).length ∧ 7 < (strip c).length ∧
            (str "CC") ∈ resplit 7 (strip c) ∧
            ((str "CC").length ≤ 7 + 1 ∨ ∃ s ∈ splitDelims (strip c), str "CC" = strip s))) :=
  ⟨by decide, split_text_bounds (by decide)⟩

/-- C4: the code applies `re.sub(r'\s+', ' ', ...)` before
`re.split(r'\n\s*\n', ...)`, so the newlines are gone by the time the
blank-line split runs and the text `"XXX\n\nYYY"` yields the single
paragraph `"XXX YYY"` — not the two candidates `"XXX"`, `"YYY"` that the
split, applied first (as the claim and the code's own comment describe),
would produce. -/
theorem blank_line_split_is_dead :
    split_text_into_paragraphs (str "XXX\n\nYYY") 3 1000 = [str "XXX YYY"] ∧
      (split_text_into_paragraphs (str "XXX\n\nYYY") 3 1000).length = 1 ∧
      splitBlank (str "XXX\n\nYYY") = [str "XXX", str "YYY"] := by
  decide

/-! ### Stable descending sort (model of Python's stable `list.sort` with
`key=..., reverse=True`): insertion sort placing later elements after
earlier elements with an equal key. -/

/-- Insert `x` (a later element) into the already sorted `l`, after every
element whose key is `≥ key x`. -/
def insertKeyDesc {α β : Type} [LinearOrder β] (key : α → β) (x : α) : List α → List α
  | [] => [x]
  | y :: ys => if key y ≤ key x then x :: y :: ys else y :: insertKeyDesc key x ys

/-- Stable sort by `key`, descending — extensionally the function computed
by Python's `list.sort(key=..., reverse=True)` (any two stable sorts by the
same key agree). -/
def sortKeyDesc {α β : Type} [LinearOrder β] (key : α → β) : List α → List α
  | [] => []
  | x :: xs => insertKeyDesc key x (sortKeyDesc key xs)

theorem insertKeyDesc_perm {α β : Type} [LinearOrder β] (key : α → β) (x : α) :
    ∀ l : List α, List.Perm (insertKeyDesc key x l) (x :: l)
  | [] => by simp [insertKeyDesc]
  | y :: ys => by
    unfold insertKeyDesc
    by_cases h : key y ≤ key x
    · rw [if_pos h]
    · rw [if_neg h]
      exact ((insertKeyDesc_perm key x ys).cons y).trans (List.Perm.swap x y ys)

theorem sortKeyDesc_perm {α β : Type} [LinearOrder β] (key : α → β) :
    ∀ l : List α, List.Perm (sortKeyDesc key l) l
  | [] => List.Perm.refl []
  | x :: xs =>
    (insertKeyDesc_perm key x (sortKeyDesc key xs)).trans ((sortKeyDesc_perm key xs).cons x)

theorem length_sortKeyDesc {α β : Type} [LinearOrder β] (key : α → β) (l : List α) :
    (sortKeyDesc key l).length = l.length :=
  (sortKeyDesc_perm key l).length_eq

theorem mem_insertKeyDesc {α β : Type} [LinearOrder β] {key : α → β} {x z : α} {l : List α}
    (h : z ∈ insertKeyDesc key x l) : z = x ∨ z ∈ l := by
  have := (insertKeyDesc_perm key x l).mem_iff.mp h
  simpa using this

theorem pairwise_insertKeyDesc {α β : Type} [LinearOrder β] (key : α → β) (x : α) :
    ∀ l : List α, List.Pairwise (fun a b => key b ≤ key a) l →
      List.Pairwise (fun a b => key b ≤ key a) (insertKeyDesc key x l)
  | [], _ => by simp [insertKeyDesc]
  | y :: ys, h => by
    unfold insertKeyDesc
    rcases List.pairwise_cons.mp h with ⟨hy, hys⟩
    by_cases hc : key y ≤ key x
    · rw [if_pos hc]
      exact List.pairwise_cons.mpr
        ⟨fun z hz => by
          rcases List.mem_cons.mp hz with rfl | hz
          · exact hc
          · exact le_trans (hy z hz) hc,
          h⟩
    · rw [if_neg hc]
      exact List.pairwise_cons.mpr
        ⟨fun z hz => by
          rcases mem_insertKeyDesc hz with rfl | hz
          · exact le_of_lt (lt_of_not_le hc)
          · exact hy z hz,
          pairwise_insertKeyDesc key x ys hys⟩

theorem pairwise_sortKeyDesc {α β : Type} [LinearOrder β] (key : α → β) :
    ∀ l : List α, List.Pairwise (fun a b => key b ≤ key a) (sortKeyDesc key l)
  | [] => by simp [sortKeyDesc]
  | x :: xs => pairwise_insertKeyDesc key x _ (pairwise_sortKeyDesc key xs)

theorem filter_insertKeyDesc {α β : Type} [LinearOrder β] (key : α → β) (x : α) (v : β) :
    ∀ l : List α,
      (insertKeyDesc key x l).filter (fun a => key a = v) =
        if key x = v then x :: l.filter (fun a => key a = v)
        else l.filter (fun a => key a = v)
  | [] => by
    unfold insertKeyDesc
    by_cases h : key x = v <;> simp [h]
  | y :: ys => by
    unfold insertKeyDesc
    by_cases hc : key y ≤ key x
    · rw [if_pos hc]
      by_cases hx : key x = v <;> simp [hx]
    · rw [if_neg hc]
      have hrec := filter_insertKeyDesc key x v ys
      by_cases hx : key x = v
      · have hy : ¬(key y = v) := fun hy => hc (le_of_eq (hy.trans hx.symm))
        simp [List.filter_cons, hx, hy, hrec]
      · simp [List.filter_cons, hx, hrec]

/-- Stability of the sort: for every key value `v`, the elements whose key
is `v` appear in the sorted list in their original relative order. -/
theorem filter_sortKeyDesc {α β : Type} [LinearOrder β] (key : α → β) (v : β) :
    ∀ l : List α,
      (sortKeyDesc key l).filter (fun a => key a = v) = l.filter (fun a => key a = v)
  | [] => rfl
  | x :: xs => by
    unfold sortKeyDesc
    rw [filter_insertKeyDesc, filter_sortKeyDesc key v xs]
    by_cases hx : key x = v <;> simp [hx, List.filter_cons]

/-- Python slicing `l[:k]` for an `int` `k`: nonnegative `k` takes the
first `k` elements; negative `k` takes all but the last `|k|`. -/
def pyTake {α : Type} (k : Int) (l : List α) : List α :=
  if 0 ≤ k then l.take k.toNat else l.take (l.length - (-k).toNat)

/-! ### Document store (`library/models.py`) -/

/-- A record of the MongoDB `documents` collection, with the fields the
verified services touch.  Ids and timestamps are modelled as `Nat`, floats
as `ℝ`. -/
structure Doc where
  id : Nat
  user_id : Nat
  title : List Nat
  content : List Nat
  created_at : Nat
  updated_at : Nat
  is_processed : Bool
  paragraphs : List (List Nat)
  paragraph_embeddings : List (List ℝ)

/-- Mongo `update_one({"_id": id}, ...)`: apply `f` to the first document
whose `_id` matches; a store without a match is returned unchanged. -/
def update_one (store : List Doc) (doc_id : Nat) (f : Doc → Doc) : List Doc :=
  match store with
  | [] => []
  | d :: rest => if d.id = doc_id then f d :: rest else d :: update_one rest doc_id f

/-- Model of `DocumentService.update_document_processing`: sets `is_processed`,
`paragraphs`, `paragraph_embeddings` and `updated_at` on the matching
document.  The code performs no validation of the two lists. -/
def update_document_processing (store : List Doc) (doc_id : Nat)
    (paragraphs : List (List Nat)) (embeddings : List (List ℝ)) (now : Nat) : List Doc :=
  update_one store doc_id (fun d =>
    { d with
      is_processed := true
      paragraphs := paragraphs
      paragraph_embeddings := embeddings
      updated_at := now })

/-- Mongo `find_one({"_id": id})`: the first document with that id. -/
def find_document (store : List Doc) (doc_id : Nat) : Option Doc :=
  store.find? (fun d => d.id == doc_id)

/-- Model of `DocumentService.get_user_documents`: the user's documents sorted by
`created_at` descending, paginated with `skip((page-1)*page_size)` and
`limit(page_size)`, together with the total count. -/
def get_user_documents (store : List Doc) (uid : Nat) (page pageSize : Nat) :
    List Doc × Nat :=
  let owned := store.filter (fun d => d.user_id == uid)
  (((sortKeyDesc (fun d => d.created_at) owned).drop ((page - 1) * pageSize)).take pageSize,
    owned.length)

/-! ### Claim C1 -/

/-- A concrete unprocessed document. -/
def doc0 : Doc :=
  ⟨1, 7, str "Doc", str "body", 0, 0, false, [], []⟩

/-- C1 (counterexample): `update_document_processing` with 2 paragraphs and
1 embedding does not fail — it persists the mismatched lists as given and
marks the document processed. -/
theorem update_processing_claim_false :
    (find_document (update_document_processing [doc0] 1 [str "p1", str "p2"] [[1]] 5) 1).map
        (fun d => d.paragraphs) = some [str "p1", str "p2"] ∧
      (find_document (update_document_processing [doc0] 1 [str "p1", str "p2"] [[1]] 5) 1).map
        (fun d => d.paragraph_embeddings) = some [[1]] ∧
      (find_document (update_document_processing [doc0] 1 [str "p1", str "p2"] [[1]] 5) 1).map
        (fun d => d.is_processed) = some true :=
  ⟨rfl, rfl, rfl⟩

/-- C1 (amended): `update_document_processing` performs no dimension
validation: whenever the document id is present, the paragraphs and
embeddings are stored exactly as given — even when their counts disagree or
an embedding's length differs from 384 — and the document is marked
processed.  No `DimensionMismatch` failure exists in the code. -/
theorem update_processing_unvalidated :
    ∀ (store : List Doc) (doc_id : Nat) (ps : List (List Nat)) (es : List (List ℝ)) (now : Nat),
      (find_document store doc_id).isSome →
      (find_document (update_document_processing store doc_id ps es now) doc_id).map
          (fun d => d.paragraphs) = some ps ∧
        (find_document (update_document_processing store doc_id ps es now) doc_id).map
          (fun d => d.paragraph_embeddings) = some es ∧
        (find_document (update_document_processing store doc_id ps es now) doc_id).map
          (fun d => d.is_processed) = some true
  | [], doc_id, ps, es, now, h => by simp [find_document] at h
  | d :: rest, doc_id, ps, es, now, h => by
    by_cases hd : d.id = doc_id
    · simp [update_document_processing, update_one, find_document, hd]
    · have hrec := update_processing_unvalidated rest doc_id ps es now
        (by simpa [find_document, List.find?_cons, hd] using h)
      simpa [update_document_processing, update_one, find_document, List.find?_cons, hd]
        using hrec

/-- Witness for `update_processing_unvalidated` on a one-document store. -/
theorem update_processing_unvalidated_witness :
    (find_document [doc0] 1).isSome ∧
      ((find_document (update_document_processing [doc0] 1 [str "p1"] [] 5) 1).map
          (fun d => d.paragraphs) = some [str "p1"] ∧
        (find_document (update_document_processing [doc0] 1 [str "p1"] [] 5) 1).map
          (fun d => d.paragraph_embeddings) = some [] ∧
        (find_document (update_document_processing [doc0] 1 [str "p1"] [] 5) 1).map
          (fun d => d.is_processed) = some true) :=
  ⟨by decide, update_processing_unvalidated [doc0] 1 [str "p1"] [] 5 (by decide)⟩

/-! ### Claim C5: scope resolution of `SemanticSearchService.search_documents` -/

/-- The scope computed by `SemanticSearchService.search_documents`:
`get_user_documents(user_id, page=1, page_size=100)` followed by
`[str(doc["_id"]) for doc in user_docs if doc.get("is_processed")]`. -/
def search_documents_scope (store : List Doc) (uid : Nat) : List Nat :=
  (((get_user_documents store uid 1 100).1).filter (fun d => d.is_processed)).map
    (fun d => d.id)

/-- A processed document owned by user 7, with `created_at = i` and id `i`. -/
def mkdoc (i : Nat) : Doc :=
  ⟨i, 7, [], [], i, 0, true, [], []⟩

/-- A store of 101 processed documents owned by user 7. -/
def store101 : List Doc :=
  (List.range 101).map mkdoc

/-- C5 (counterexample): with 101 processed documents owned by user 7, the
oldest document (id 0) is owned and processed but absent from the resolved
scope — `get_user_documents` is called with `page_size=100` and returns only
the 100 most recently created documents. -/
theorem search_scope_claim_false :
    (∃ d ∈ store101, d.id = 0 ∧ d.user_id = 7 ∧ d.is_processed = true) ∧
      0 ∉ search_documents_scope store101 7 := by
  decide

/-- C5 (amended): the scope contains every processed document of the owner
provided the owner has at most 100 documents in total; owners with more
documents have all but the 100 most recently created ones silently excluded
(`page_size = 100`). -/
theorem search_scope_complete_of_le_100 :
    ∀ (store : List Doc) (uid : Nat) (d : Doc),
      d ∈ store → d.user_id = uid → d.is_processed = true →
      (store.filter (fun x => x.user_id == uid)).length ≤ 100 →
      d.id ∈ search_documents_scope store uid := by
  intro store uid d hd ho hp hn
  have howned : d ∈ store.filter (fun x => x.user_id == uid) :=
    List.mem_filter.mpr ⟨hd, by simp [ho]⟩
  have hsorted : d ∈ sortKeyDesc (fun x : Doc => x.created_at)
      (store.filter (fun x => x.user_id == uid)) :=
    (sortKeyDesc_perm _ _).mem_iff.mpr howned
  have hpage : (get_user_documents store uid 1 100).1 =
      sortKeyDesc (fun x : Doc => x.created_at) (store.filter (fun x => x.user_id == uid)) := by
    unfold get_user_documents
    simp only
    rw [show (1 - 1) * 100 = 0 by norm_num, List.drop_zero]
    exact List.take_of_length_le (by rw [length_sortKeyDesc]; exact hn)
  unfold search_documents_scope
  rw [hpage]
  exact List.mem_map.mpr ⟨d, List.mem_filter.mpr ⟨hsorted, by simp [hp]⟩, rfl⟩

/-- Witness for `search_scope_complete_of_le_100` on a one-document store. -/
theorem search_scope_complete_witness :
    mkdoc 0 ∈ [mkdoc 0] ∧ (mkdoc 0).user_id = 7 ∧ (mkdoc 0).is_processed = true ∧
      (List.filter (fun x => x.user_id == 7) [mkdoc 0]).length ≤ 100 ∧
      (mkdoc 0).id ∈ search_documents_scope [mkdoc 0] 7 :=
  ⟨List.mem_singleton.mpr rfl, rfl, rfl, by decide,
    search_scope_complete_of_le_100 [mkdoc 0] 7 (mkdoc 0)
      (List.mem_singleton.mpr rfl) rfl rfl (by decide)⟩

/-! ### `EmbeddingService.search_similar_paragraphs` (`library/models.py`) -/

/-- Python `sum(x * x for x in v)`. -/
def sumSq (v : List ℝ) : ℝ :=
  (v.map (fun x => x * x)).sum

/-- Python `sum(a * b for a, b in zip(q, e))`. -/
def dotList (q e : List ℝ) : ℝ :=
  ((q.zip e).map (fun ab => ab.1 * ab.2)).sum

/-- One entry of the `results` list built by `search_similar_paragraphs`. -/
structure SearchResult where
  document_id : Nat
  document_title : List Nat
  paragraph_index : Nat
  paragraph : List Nat
  similarity : ℝ

/-- The inner loop of `search_similar_paragraphs` over one document:
`for i, (paragraph, embedding) in enumerate(zip(paragraphs, embeddings))`,
skipping embeddings whose length differs from the query's and candidates
with a zero norm (`if norm_a == 0 or norm_b == 0: continue`), scoring the
rest with cosine similarity. -/
noncomputable def paraCandidates (q : List ℝ) (d : Doc) : List SearchResult :=
  ((d.paragraphs.zip d.paragraph_embeddings).enum).filterMap
    (fun ie =>
      if ie.2.2.length ≠ q.length then none
      else
        let na := Real.sqrt (sumSq q)
        let nb := Real.sqrt (sumSq ie.2.2)
        if na = 0 ∨ nb = 0 then none
        else some ⟨d.id, d.title, ie.1, ie.2.1, dotList q ie.2.2 / (na * nb)⟩)

/-- The Mongo query of `search_similar_paragraphs`: documents whose id is
in the scope, marked processed, with non-empty `paragraph_embeddings`. -/
def scopedDocs (store : List Doc) (ids : List Nat) : List Doc :=
  store.filter (fun d => ids.contains d.id && d.is_processed && !d.paragraph_embeddings.isEmpty)

/-- All scored candidates of a query: the per-document candidate lists in
store order (the insertion order ties are broken by). -/
noncomputable def scopedCandidates (store : List Doc) (q : List ℝ) (ids : List Nat) :
    List SearchResult :=
  (scopedDocs store ids).flatMap (paraCandidates q)

/-- Model of `EmbeddingService.search_similar_paragraphs(query_embedding, user_doc_ids, top_k)`:
empty scope short-circuit, candidate scoring, stable sort by similarity
descending, then Python slicing `results[:top_k]`. -/
noncomputable def search_similar_paragraphs (store : List Doc) (q : List ℝ) (ids : List Nat)
    (k : Int) : List SearchResult :=
  if ids = [] then []
  else pyTake k (sortKeyDesc (fun r => r.similarity) (scopedCandidates store q ids))

theorem scopedCandidates_nil (store : List Doc) (q : List ℝ) :
    scopedCandidates store q [] = [] := by
  unfold scopedCandidates scopedDocs
  rw [List.filter_eq_nil_iff.mpr (by intro d _; simp [List.contains])]
  rfl

theorem mem_paraCandidates {q : List ℝ} {d : Doc} {r : SearchResult}
    (h : r ∈ paraCandidates q d) : r.document_id = d.id := by
  unfold paraCandidates at h
  obtain ⟨ie, _, hsome⟩ := List.mem_filterMap.mp h
  by_cases h1 : ie.2.2.length ≠ q.length
  · rw [if_pos h1] at hsome
    exact absurd hsome (by simp)
  · rw [if_neg h1] at hsome
    simp only at hsome
    by_cases h2 : Real.sqrt (sumSq q) = 0 ∨ Real.sqrt (sumSq ie.2.2) = 0
    · rw [if_pos h2] at hsome
      exact absurd hsome (by simp)
    · rw [if_neg h2] at hsome
      have := Option.some.inj hsome
      rw [← this]

/-- Any member of the search output is a member of the scored candidates. -/
theorem mem_of_mem_search {store : List Doc} {q : List ℝ} {ids : List Nat} {k : Int}
    {r : SearchResult} (h : r ∈ search_similar_paragraphs store q ids k) :
    r ∈ scopedCandidates store q ids := by
  unfold search_similar_paragraphs at h
  by_cases hids : ids = []
  · rw [if_pos hids] at h
    exact absurd h (by simp)
  · rw [if_neg hids] at h
    have hsorted : r ∈ sortKeyDesc (fun r => r.similarity) (scopedCandidates store q ids) := by
      unfold pyTake at h
      by_cases hk : (0 : Int) ≤ k
      · rw [if_pos hk] at h
        exact (List.take_sublist _ _).mem h
      · rw [if_neg hk] at h
        exact (List.take_sublist _ _).mem h
    exact (sortKeyDesc_perm _ _).mem_iff.mp hsorted

/-! ### Claim C6: scope isolation -/

/-- C6: every result of `search_similar_paragraphs` comes from a document
whose id is in the supplied scope and which is marked processed — a
paragraph of a document outside the scope, or of an unprocessed document,
never appears, whatever its similarity. -/
theorem search_scope_isolation :
    ∀ (store : List Doc) (q : List ℝ) (ids : List Nat) (k : Int) (r : SearchResult),
      r ∈ search_similar_paragraphs store q ids k →
      r.document_id ∈ ids ∧ ∃ d ∈ store, d.id = r.document_id ∧ d.is_processed = true := by
  intro store q ids k r h
  have hc := mem_of_mem_search h
  unfold scopedCandidates at hc
  obtain ⟨d, hd, hr⟩ := List.mem_flatMap.mp hc
  have hdoc := List.mem_filter.mp hd
  have hid := mem_paraCandidates hr
  have hcond := hdoc.2
  simp only [Bool.and_eq_true, Bool.not_eq_true'] at hcond
  refine ⟨?_, d, hdoc.1, hid.symm, hcond.1.2⟩
  rw [hid]
  exact List.elem_iff.mp hcond.1.1

/-! ### Claim C10: zero-norm query -/

/-- C10: a query vector with zero Euclidean norm makes every candidate be
skipped (`norm_a == 0` holds for each), so the search returns the empty
list — no division-by-zero error, no zero-scored candidates. -/
theorem search_zero_query_empty :
    ∀ (store : List Doc) (q : List ℝ) (ids : List Nat) (k : Int),
      Real.sqrt (sumSq q) = 0 → search_similar_paragraphs store q ids k = [] := by
  intro store q ids k hq
  unfold search_similar_paragraphs
  by_cases hids : ids = []
  · rw [if_pos hids]
  · rw [if_neg hids]
    have hcand : scopedCandidates store q ids = [] := by
      unfold scopedCandidates
      have : ∀ d ∈ scopedDocs store ids, paraCandidates q d = [] := by
        intro d _
        unfold paraCandidates
        rw [List.filterMap_eq_nil_iff]
        intro ie _
        by_cases h1 : ie.2.2.length ≠ q.length
        · rw [if_pos h1]
        · rw [if_neg h1]
          simp only
          rw [if_pos (Or.inl hq)]
      calc (scopedDocs store ids).flatMap (paraCandidates q)
          = (scopedDocs store ids).flatMap (fun _ => []) := List.flatMap_congr this
        _ = [] := by simp
    rw [hcand]
    show pyTake k (sortKeyDesc _ []) = []
    unfold pyTake sortKeyDesc
    by_cases hk : (0 : Int) ≤ k
    · rw [if_pos hk, List.take_nil]
    · rw [if_neg hk, List.take_nil]

/-- Witness for `search_zero_query_empty` with the zero query `[0, 0]`. -/
theorem search_zero_query_empty_witness :
    Real.sqrt (sumSq [(0 : ℝ), 0]) = 0 ∧
      search_similar_paragraphs [doc0] [(0 : ℝ), 0] [1] 3 = [] :=
  ⟨by simp [sumSq], search_zero_query_empty [doc0] [(0 : ℝ), 0] [1] 3 (by simp [sumSq])⟩

/-! ### Claim C7: top-K ordering -/

/-- C7: for `k > 0` the search output is the first `k` elements of the
stable descending sort of the candidates: it is sorted by descending
similarity, ties keep the candidates' original (insertion) order, and
exactly `min k (number of candidates)` results are returned. -/
theorem search_topk_sorted :
    ∀ (store : List Doc) (q : List ℝ) (ids : List Nat) (k : Int), 0 < k →
      search_similar_paragraphs store q ids k =
          (sortKeyDesc (fun r => r.similarity) (scopedCandidates store q ids)).take k.toNat ∧
        List.Pairwise (fun a b => b.similarity ≤ a.similarity)
          (search_similar_paragraphs store q ids k) ∧
        (∀ v : ℝ,
          (sortKeyDesc (fun r => r.similarity) (scopedCandidates store q ids)).filter
              (fun r => r.similarity = v) =
            (scopedCandidates store q ids).filter (fun r => r.similarity = v)) ∧
        (search_similar_paragraphs store q ids k).length =
          min k.toNat (scopedCandidates store q ids).length := by
  intro store q ids k hk
  have heq : search_similar_paragraphs store q ids k =
      (sortKeyDesc (fun r => r.similarity) (scopedCandidates store q ids)).take k.toNat := by
    unfold search_similar_paragraphs
    by_cases hids : ids = []
    · rw [if_pos hids, hids, scopedCandidates_nil]
      show ([] : List SearchResult) = (sortKeyDesc _ []).take k.toNat
      rw [show sortKeyDesc (fun r : SearchResult => r.similarity) [] = [] from rfl,
        List.take_nil]
    · rw [if_neg hids]
      unfold pyTake
      rw [if_pos (le_of_lt hk)]
  refine ⟨heq, ?_, fun v => filter_sortKeyDesc _ v _, ?_⟩
  · rw [heq]
    exact (pairwise_sortKeyDesc _ _).sublist (List.take_sublist _ _)
  · rw [heq, List.length_take, length_sortKeyDesc]

/-! ### Claim C3: `k ≤ 0` -/

/-- C3 (amended): `k = 0` returns the empty list, but a negative `k` does
not: Python's `results[:top_k]` with negative `top_k` returns all ranked
candidates except the last `|top_k|`. -/
theorem search_nonpositive_k :
    ∀ (store : List Doc) (q : List ℝ) (ids : List Nat) (k : Int), k ≤ 0 →
      (k = 0 → search_similar_paragraphs store q ids k = []) ∧
        (k < 0 → search_similar_paragraphs store q ids k =
          (sortKeyDesc (fun r => r.similarity) (scopedCandidates store q ids)).take
            ((scopedCandidates store q ids).length - (-k).toNat)) := by
  intro store q ids k _
  constructor
  · intro hk0
    unfold search_similar_paragraphs
    by_cases hids : ids = []
    · rw [if_pos hids]
    · rw [if_neg hids]
      unfold pyTake
      rw [hk0]
      rw [if_pos le_rfl]
      simp
  · intro hkneg
    unfold search_similar_paragraphs
    by_cases hids : ids = []
    · rw [if_pos hids, hids, scopedCandidates_nil]
      show ([] : List SearchResult) = (sortKeyDesc _ []).take _
      rw [show sortKeyDesc (fun r : SearchResult => r.similarity) [] = [] from rfl,
        List.take_nil]
    · rw [if_neg hids]
      unfold pyTake
      rw [if_neg (by omega), length_sortKeyDesc]

/-- Witness for `search_nonpositive_k` at `k = -1`. -/
theorem search_nonpositive_k_witness :
    (-1 : Int) ≤ 0 ∧
      ((-1 : Int) = 0 → search_similar_paragraphs [] [] [] (-1) = []) ∧
        ((-1 : Int) < 0 → search_similar_paragraphs [] [] [] (-1) =
          (sortKeyDesc (fun r => r.similarity) (scopedCandidates [] [] [])).take
            ((scopedCandidates [] [] []).length - (-(-1) : Int).toNat)) :=
  ⟨by decide, search_nonpositive_k [] [] [] (-1) (by decide)⟩

/-! ### A concrete store for evaluating the search pipeline -/

/-- A processed document with two paragraphs embedded (in dimension 2, which
the code accepts: it only compares each embedding's length with the query's). -/
noncomputable def pdoc : Doc :=
  ⟨1, 7, str "T", [], 0, 0, true, [str "pa", str "pb"], [[1, 0], [1, 0]]⟩

noncomputable def searchStore : List Doc := [pdoc]

noncomputable def res1 : SearchResult := ⟨1, str "T", 0, str "pa", 1⟩

noncomputable def res2 : SearchResult := ⟨1, str "T", 1, str "pb", 1⟩

theorem sumSq_10 : sumSq [(1 : ℝ), 0] = 1 := by
  norm_num [sumSq]

theorem paraCandidates_eval : paraCandidates [(1 : ℝ), 0] pdoc = [res1, res2] := by
  unfold paraCandidates pdoc
  norm_num [List.enum, List.filterMap, sumSq_10, Real.sqrt_one, res1, res2, dotList, sumSq]

theorem scopedCandidates_eval :
    scopedCandidates searchStore [(1 : ℝ), 0] [1] = [res1, res2] := by
  unfold scopedCandidates scopedDocs searchStore
  rw [List.filter_cons]
  norm_num [pdoc, paraCandidates_eval]
  rw [show (Doc.mk 1 7 (str "T") [] 0 0 true [str "pa", str "pb"] [[1, 0], [1, 0]]) = pdoc
    from rfl, paraCandidates_eval]

theorem sort_eval :
    sortKeyDesc (fun r : SearchResult => r.similarity) [res1, res2] = [res1, res2] := by
  have h2 : insertKeyDesc (fun r : SearchResult => r.similarity) res1 [res2] = [res1, res2] := by
    unfold insertKeyDesc
    rw [if_pos (show res2.similarity ≤ res1.similarity from le_of_eq (by rfl))]
  show insertKeyDesc _ res1 (insertKeyDesc _ res2 (sortKeyDesc _ [])) = _
  rw [show sortKeyDesc (fun r : SearchResult => r.similarity) [] = [] from rfl,
    show insertKeyDesc (fun r : SearchResult => r.similarity) res2 [] = [res2] from rfl, h2]

theorem search_eval_k1 :
    search_similar_paragraphs searchStore [(1 : ℝ), 0] [1] 1 = [res1] := by
  unfold search_similar_paragraphs
  rw [if_neg (by simp), scopedCandidates_eval, sort_eval]
  unfold pyTake
  rw [if_pos (by decide)]
  rfl

theorem search_eval_negk :
    search_similar_paragraphs searchStore [(1 : ℝ), 0] [1] (-1) = [res1] := by
  unfold search_similar_paragraphs
  rw [if_neg (by simp), scopedCandidates_eval, sort_eval]
  unfold pyTake
  rw [if_neg (by decide)]
  rfl

/-- C3 (counterexample): with two candidates and `k = -1 ≤ 0` the search
returns one result, not the empty list the claim promises for every
`k ≤ 0`. -/
theorem search_negative_k_claim_false :
    (-1 : Int) ≤ 0 ∧ search_similar_paragraphs searchStore [(1 : ℝ), 0] [1] (-1) ≠ [] := by
  refine ⟨by decide, ?_⟩
  rw [search_eval_negk]
  simp

/-- Witness for `search_scope_isolation` at the concrete one-document store. -/
theorem search_scope_isolation_witness :
    res1 ∈ search_similar_paragraphs searchStore [(1 : ℝ), 0] [1] 1 ∧
      (res1.document_id ∈ [1] ∧
        ∃ d ∈ searchStore, d.id = res1.document_id ∧ d.is_processed = true) :=
  ⟨by rw [search_eval_k1]; exact List.mem_singleton.mpr rfl,
    search_scope_isolation searchStore [(1 : ℝ), 0] [1] 1 res1
      (by rw [search_eval_k1]; exact List.mem_singleton.mpr rfl)⟩

/-- Witness for `search_topk_sorted` at the concrete one-document store and
`k = 1`. -/
theorem search_topk_sorted_witness :
    (0 : Int) < 1 ∧
      (search_similar_paragraphs searchStore [(1 : ℝ), 0] [1] 1 =
          (sortKeyDesc (fun r => r.similarity)
            (scopedCandidates searchStore [(1 : ℝ), 0] [1])).take (1 : Int).toNat ∧
        List.Pairwise (fun a b => b.similarity ≤ a.similarity)
          (search_similar_paragraphs searchStore [(1 : ℝ), 0] [1] 1) ∧
        (∀ v : ℝ,
          (sortKeyDesc (fun r => r.similarity)
              (scopedCandidates searchStore [(1 : ℝ), 0] [1])).filter
              (fun r => r.similarity = v) =
            (scopedCandidates searchStore [(1 : ℝ), 0] [1]).filter
              (fun r => r.similarity = v)) ∧
        (search_similar_paragraphs searchStore [(1 : ℝ), 0] [1] 1).length =
          min (1 : Int).toNat (scopedCandidates searchStore [(1 : ℝ), 0] [1]).length) :=
  ⟨by decide, search_topk_sorted searchStore [(1 : ℝ), 0] [1] 1 (by decide)⟩

/-! ### `compute_embedding` (`ai/embeddings.py`) -/

/-- The configured embedding dimension. -/
def DIM : Nat := 384

/-- Python `int.from_bytes(h[i:i+2], "big", signed=False)` over the pairs
`i = 0, 2, 4, ...`: big-endian 16-bit values; a trailing odd byte (never
produced by SHA-256's 32-byte digests) is the byte itself. -/
def bytePairs : List Nat → List Nat
  | [] => []
  | [a] => [a]
  | a :: b :: rest => (a * 256 + b) :: bytePairs rest

/-- Python `((val % 1000) / 500.0) - 1.0`. -/
noncomputable def valToFloat (val : Nat) : ℝ :=
  ((val % 1000 : Nat) : ℝ) / 500 - 1

/-- The `while len(v) < DIM` hash-chaining loop of `compute_embedding`; the
abstract `hash` stands for `hashlib.sha256(...).digest()` (bytes in, 32
bytes out).  The inner `for` with its `break` appends
`take (DIM - len v)` of the digest's pair values, and the digest becomes
the next seed.  The fuel bounds the rounds: the real SHA-256 contributes 16
values per round so `DIM` rounds are more than enough; only a degenerate
abstract hash (for which the Python loop would never terminate) can exhaust
it. -/
noncomputable def deriveLoop (hash : List Nat → List Nat) :
    Nat → List Nat → List ℝ → List ℝ
  | 0, _, v => v
  | fuel + 1, seed, v =>
    if DIM ≤ v.length then v
    else
      deriveLoop hash fuel (hash seed)
        (v ++ ((bytePairs (hash seed)).take (DIM - v.length)).map valToFloat)

/-- The pre-normalization vector `v` of `compute_embedding`. -/
noncomputable def preVec (hash : List Nat → List Nat) (text : List Nat) : List ℝ :=
  deriveLoop hash DIM text []

/-- Model of `compute_embedding(text)`: derive the values from chained hashes of the
UTF-8 text, then divide by `norm = math.sqrt(sum(x*x for x in v)) or 1.0`
(`or 1.0` turns a zero norm into a division by 1, leaving the vector
unchanged). -/
noncomputable def compute_embedding (hash : List Nat → List Nat) (text : List Nat) : List ℝ :=
  (preVec hash text).map
    (fun x => x /
      (if Real.sqrt (sumSq (preVec hash text)) = 0 then 1
       else Real.sqrt (sumSq (preVec hash text))))

/-- Euclidean norm, `math.sqrt(sum(x*x for x in v))`. -/
noncomputable def euclidNorm (v : List ℝ) : ℝ :=
  Real.sqrt (sumSq v)

theorem sumSq_nonneg (v : List ℝ) : 0 ≤ sumSq v :=
  List.sum_nonneg (by
    intro x hx
    obtain ⟨y, _, rfl⟩ := List.mem_map.mp hx
    exact mul_self_nonneg y)

theorem sumSq_map_div : ∀ (v : List ℝ) (n : ℝ),
    sumSq (v.map (fun x => x / n)) = sumSq v / (n * n)
  | [], n => by simp [sumSq]
  | x :: xs, n => by
    have hrec := sumSq_map_div xs n
    simp only [sumSq, List.map_cons, List.sum_cons] at hrec ⊢
    rw [div_mul_div_comm, hrec, div_add_div_same]

/-- C8: the embedder's output is a unit vector whenever the derived
pre-normalization vector is non-zero (in the sum-of-squares sense the code
tests); when that vector has zero norm it is returned unchanged, not
normalized and not rejected. -/
theorem compute_embedding_norm :
    ∀ (hash : List Nat → List Nat) (text : List Nat),
      (sumSq (preVec hash text) ≠ 0 → euclidNorm (compute_embedding hash text) = 1) ∧
        (sumSq (preVec hash text) = 0 → compute_embedding hash text = preVec hash text) := by
  intro hash text
  set v := preVec hash text with hv
  constructor
  · intro hne
    have hpos : 0 < sumSq v := lt_of_le_of_ne (sumSq_nonneg v) (Ne.symm hne)
    have hsq : Real.sqrt (sumSq v) ≠ 0 := ne_of_gt (Real.sqrt_pos.mpr hpos)
    unfold compute_embedding euclidNorm
    rw [← hv]
    rw [if_neg hsq]
    rw [sumSq_map_div, Real.mul_self_sqrt (le_of_lt hpos), div_self hne, Real.sqrt_one]
  · intro hz
    unfold compute_embedding
    rw [← hv]
    rw [hz, Real.sqrt_zero, if_pos rfl]
    simp

/-- A degenerate two-byte hash used to evaluate the embedder concretely:
each round contributes the single pair value `200 * 256 + 0 = 51200`. -/
def hash0 : List Nat → List Nat := fun _ => [200, 0]

theorem deriveLoop_hash0 :
    ∀ (fuel : Nat) (seed : List Nat) (v : List ℝ),
      deriveLoop hash0 fuel seed v =
        v ++ List.replicate (min fuel (DIM - v.length)) (valToFloat 51200)
  | 0, seed, v => by simp [deriveLoop]
  | fuel + 1, seed, v => by
    unfold deriveLoop
    by_cases h : DIM ≤ v.length
    · rw [if_pos h]
      rw [Nat.sub_eq_zero_of_le h]
      simp
    · rw [if_neg h]
      have hlt : v.length < DIM := Nat.lt_of_not_le h
      have hpairs : bytePairs (hash0 seed) = [51200] := rfl
      have htake : (bytePairs (hash0 seed)).take (DIM - v.length) = [51200] := by
        rw [hpairs]
        exact List.take_of_length_le (by simpa using Nat.one_le_iff_ne_zero.mpr (by omega))
      rw [htake]
      simp only [List.map_cons, List.map_nil]
      rw [deriveLoop_hash0 fuel (hash0 seed) (v ++ [valToFloat 51200])]
      rw [List.append_assoc]
      congr 1
      have hlen : (v ++ [valToFloat 51200]).length = v.length + 1 := by simp
      rw [hlen]
      have : DIM - v.length = (DIM - (v.length + 1)) + 1 := by omega
      rw [this, Nat.succ_min_succ]
      rfl

theorem preVec_hash0_empty :
    preVec hash0 (str "") = List.replicate DIM (valToFloat 51200) := by
  unfold preVec
  rw [deriveLoop_hash0]
  simp

theorem sumSq_replicate : ∀ (n : Nat) (c : ℝ),
    sumSq (List.replicate n c) = (n : ℝ) * (c * c)
  | 0, c => by simp [sumSq]
  | n + 1, c => by
    rw [List.replicate_succ]
    simp only [sumSq, List.map_cons, List.sum_cons] at sumSq_replicate ⊢
    rw [sumSq_replicate n c]
    push_cast
    ring

theorem sumSq_preVec_hash0 : sumSq (preVec hash0 (str "")) ≠ 0 := by
  rw [preVec_hash0_empty, sumSq_replicate]
  have : valToFloat 51200 = 2 / 5 - 1 := by
    unfold valToFloat
    norm_num
  rw [this]
  norm_num [DIM]

/-- Witness for `compute_embedding_norm`: with the degenerate hash `hash0`
the derived vector is `384` copies of `-3/5`, its sum of squares is
non-zero, and the embedding of the empty text has norm `1`. -/
theorem compute_embedding_norm_witness :
    sumSq (preVec hash0 (str "")) ≠ 0 ∧ euclidNorm (compute_embedding hash0 (str "")) = 1 :=
  ⟨sumSq_preVec_hash0, (compute_embedding_norm hash0 (str "")).1 sumSq_preVec_hash0⟩

/-! ### `vector_search` (`ai/embeddings.py`) and its fallback (C9) -/

/-- A row of the `profiles_embeddings` collection. -/
structure ProfileRow where
  user_id : Nat
  embedding : List ℝ

/-- An entry of the list `vector_search` returns: `{user_id, score}`. -/
structure ScoredRow where
  user_id : Nat
  score : ℝ

/-- The fallback scan of `vector_search`: skip rows whose stored embedding
length differs from `DIM`, score the rest by dot product with the query
vector. -/
def scoreRows (qv : List ℝ) (rows : List ProfileRow) : List ScoredRow :=
  rows.filterMap (fun r =>
    if r.embedding.length ≠ DIM then none
    else some ⟨r.user_id, dotList qv r.embedding⟩)

/-- Model of `vector_search(query_text, k)`: attempt the Atlas `$vectorSearch`
aggregation — modelled as an abstract optional response, `none` standing
for "unavailable / raised an exception" — return its results when
nonempty, and otherwise fall back to the exact dot-product scan over the
stored rows, sorted descending by score and sliced with `[:k]`. -/
noncomputable def vector_search (hash : List Nat → List Nat)
    (backend : Option (List ScoredRow)) (store : List ProfileRow)
    (query_text : List Nat) (k : Int) : List ScoredRow :=
  let qv := compute_embedding hash query_text
  let fallback := pyTake k (sortKeyDesc (fun r => r.score) (scoreRows qv store))
  match backend with
  | some rs => if rs.isEmpty then fallback else rs
  | none => fallback

theorem pyTake_sublist {α : Type} (k : Int) (l : List α) : (pyTake k l).Sublist l := by
  unfold pyTake
  by_cases hk : (0 : Int) ≤ k
  · rw [if_pos hk]
    exact List.take_sublist _ _
  · rw [if_neg hk]
    exact List.take_sublist _ _

/-- C9: whenever the delegated backend is unavailable, errors, or returns
zero results, `vector_search` returns exactly the fallback linear scan:
the stored rows scored by dot product, sorted descending (stably), sliced
to the first `k` — so for `k > 0` the caller gets
`min k (number of scannable rows)` ranked results. -/
theorem vector_search_fallback :
    ∀ (hash : List Nat → List Nat) (backend : Option (List ScoredRow))
      (store : List ProfileRow) (query_text : List Nat) (k : Int),
      backend = none ∨ backend = some [] →
      vector_search hash backend store query_text k =
          pyTake k (sortKeyDesc (fun r => r.score)
            (scoreRows (compute_embedding hash query_text) store)) ∧
        List.Pairwise (fun a b => b.score ≤ a.score)
          (vector_search hash backend store query_text k) ∧
        (0 < k → (vector_search hash backend store query_text k).length =
          min k.toNat (scoreRows (compute_embedding hash query_text) store).length) := by
  intro hash backend store query_text k hb
  have heq : vector_search hash backend store query_text k =
      pyTake k (sortKeyDesc (fun r => r.score)
        (scoreRows (compute_embedding hash query_text) store)) := by
    rcases hb with rfl | rfl
    · rfl
    · rfl
  refine ⟨heq, ?_, ?_⟩
  · rw [heq]
    exact (pairwise_sortKeyDesc _ _).sublist (pyTake_sublist _ _)
  · intro hk
    rw [heq]
    unfold pyTake
    rw [if_pos (le_of_lt hk), List.length_take, length_sortKeyDesc]

/-- Witness for `vector_search_fallback` with an erroring backend. -/
theorem vector_search_fallback_witness :
    ((none : Option (List ScoredRow)) = none ∨ (none : Option (List ScoredRow)) = some []) ∧
      (vector_search hash0 none [] [] 5 =
          pyTake 5 (sortKeyDesc (fun r => r.score)
            (scoreRows (compute_embedding hash0 []) [])) ∧
        List.Pairwise (fun a b => b.score ≤ a.score) (vector_search hash0 none [] [] 5) ∧
        (0 < (5 : Int) → (vector_search hash0 none [] [] 5).length =
          min (5 : Int).toNat (scoreRows (compute_embedding hash0 []) []).length)) :=
  ⟨Or.inl rfl, vector_search_fallback hash0 none [] [] 5 (Or.inl rfl)⟩

end StudEsprit
